import Mathlib

/-!
Formal model of the `AdcChannelMetric` tool
(`dunedataprep/DataPrep/Tool/AdcChannelMetric.h`).

The per-channel running-statistics accumulator `MetricSummary` is embedded
directly from the inline C++ in the header.  `double` arithmetic is modelled
by real numbers; `Index` (unsigned int) by natural numbers.  The parts of the
tool whose implementation file is not present (metric evaluation, clamping,
per-range aggregation, status splitting, range-list resolution, state
bookkeeping, line positions) are modelled from the specification and marked
as such in their doc comments.
-/

/-- Embedded from `AdcChannelMetric.h`, class `MetricSummary`:
`Index count = 0; double sum = 0.0; double sumsq = 0.0;`. -/
structure MetricSummary where
  count : ℕ
  sum : ℝ
  sumsq : ℝ

/-- `void add(double val) { ++count; sum+=val; sumsq+=val*val; }` -/
def MetricSummary.add (s : MetricSummary) (val : ℝ) : MetricSummary :=
  { count := s.count + 1, sum := s.sum + val, sumsq := s.sumsq + val * val }

/-- `double mean() const { return count ? sum/count : 0.0; }` -/
noncomputable def MetricSummary.mean (s : MetricSummary) : ℝ :=
  if s.count ≠ 0 then s.sum / (s.count : ℝ) else 0

/-- `double meansq() const { return count ? sumsq/count : 0.0; }` -/
noncomputable def MetricSummary.meansq (s : MetricSummary) : ℝ :=
  if s.count ≠ 0 then s.sumsq / (s.count : ℝ) else 0

/-- `double rms() const { double valm = mean(); return meansq() - valm*valm; }` -/
noncomputable def MetricSummary.rms (s : MetricSummary) : ℝ :=
  s.meansq - s.mean * s.mean

/-- `double dmean() const { return count ? rms()/sqrt(double(count)) : 0.0; }` -/
noncomputable def MetricSummary.dmean (s : MetricSummary) : ℝ :=
  if s.count ≠ 0 then s.rms / Real.sqrt (s.count : ℝ) else 0

/-- The accumulator state reached by feeding the values of `l`, in order, to a
freshly constructed `MetricSummary` via `add`. -/
noncomputable def MetricSummary.ofList (l : List ℝ) : MetricSummary :=
  l.foldl MetricSummary.add ⟨0, 0, 0⟩

theorem foldl_add_count (l : List ℝ) (s : MetricSummary) :
    (l.foldl MetricSummary.add s).count = s.count + l.length := by
  induction l generalizing s with
  | nil => simp
  | cons v t ih => simp [MetricSummary.add, ih]; omega

theorem foldl_add_sum (l : List ℝ) (s : MetricSummary) :
    (l.foldl MetricSummary.add s).sum = s.sum + l.sum := by
  induction l generalizing s with
  | nil => simp
  | cons v t ih => simp [MetricSummary.add, ih]; ring

theorem foldl_add_sumsq (l : List ℝ) (s : MetricSummary) :
    (l.foldl MetricSummary.add s).sumsq = s.sumsq + (l.map fun v => v * v).sum := by
  induction l generalizing s with
  | nil => simp
  | cons v t ih => simp [MetricSummary.add, ih]; ring

theorem ofList_count (l : List ℝ) : (MetricSummary.ofList l).count = l.length := by
  simp [MetricSummary.ofList, foldl_add_count]

theorem ofList_sum (l : List ℝ) : (MetricSummary.ofList l).sum = l.sum := by
  simp [MetricSummary.ofList, foldl_add_sum]

theorem ofList_sumsq (l : List ℝ) :
    (MetricSummary.ofList l).sumsq = (l.map fun v => v * v).sum := by
  simp [MetricSummary.ofList, foldl_add_sumsq]

/-- Claim C1 (counterexample): at the state reached by `add 0; add 4`
(count = 2, sum = 4, sumsq = 16), `dmean` does NOT equal
`sqrt(variance/count)`: the code returns `rms()/sqrt(count) = 4/√2` while the
claim demands `√(4/2) = √2`. -/
theorem C1_counterexample :
    ¬ ((⟨2, 4, 16⟩ : MetricSummary).dmean
        = Real.sqrt ((⟨2, 4, 16⟩ : MetricSummary).rms
            / ((⟨2, 4, 16⟩ : MetricSummary).count : ℝ))) := by
  have hr : (⟨2, 4, 16⟩ : MetricSummary).rms = 4 := by
    norm_num [MetricSummary.rms, MetricSummary.meansq, MetricSummary.mean]
  have hd : (⟨2, 4, 16⟩ : MetricSummary).dmean = 4 / Real.sqrt 2 := by
    norm_num [MetricSummary.dmean, hr]
  rw [hd, hr]
  intro h
  have h42 : ((4 : ℝ) / (((⟨2, 4, 16⟩ : MetricSummary).count : ℕ) : ℝ)) = 2 := by
    norm_num
  rw [h42] at h
  have h2 : (0 : ℝ) < Real.sqrt 2 := Real.sqrt_pos.mpr (by norm_num)
  rw [div_eq_iff (ne_of_gt h2)] at h
  rw [Real.mul_self_sqrt (by norm_num : (0 : ℝ) ≤ 2)] at h
  norm_num at h

/-- Claim C1 (amended): for every accumulator state with `count > 0`, the
error-of-mean accessor `dmean` returns `rms()/sqrt(count)`, i.e. the variance
`meansq - mean²` divided by the square root of the count (not the square root
of variance/count). -/
theorem C1_dmean_amended (s : MetricSummary) (h : 0 < s.count) :
    s.dmean = s.rms / Real.sqrt (s.count : ℝ) := by
  simp [MetricSummary.dmean, Nat.pos_iff_ne_zero.mp h]

/-- Claim C1 witness: the amended statement instantiated at the concrete
state (count = 2, sum = 4, sumsq = 16). -/
theorem C1_dmean_witness :
    0 < (⟨2, 4, 16⟩ : MetricSummary).count ∧
    (⟨2, 4, 16⟩ : MetricSummary).dmean
      = (⟨2, 4, 16⟩ : MetricSummary).rms
          / Real.sqrt (((⟨2, 4, 16⟩ : MetricSummary).count : ℕ) : ℝ) :=
  ⟨by norm_num, C1_dmean_amended ⟨2, 4, 16⟩ (by norm_num)⟩

/-- Claim C2: for every finite sequence of values fed to a single
`MetricSummary` via `add`, `count` equals the number of `add` calls, `mean`
equals the arithmetic mean of exactly the values added so far (0 when count
is 0), and `mean` is independent of the order in which they were added. -/
theorem C2_mean_is_arithmetic_mean (l : List ℝ) :
    (MetricSummary.ofList l).count = l.length ∧
    (MetricSummary.ofList l).mean
      = (if l.length = 0 then 0 else l.sum / (l.length : ℝ)) ∧
    ∀ l' : List ℝ, l.Perm l' →
      (MetricSummary.ofList l').mean = (MetricSummary.ofList l).mean := by
  refine ⟨ofList_count l, ?_, ?_⟩
  · rcases Nat.eq_zero_or_pos l.length with h | h
    · simp [MetricSummary.mean, ofList_count, ofList_sum, h]
    · simp [MetricSummary.mean, ofList_count, ofList_sum, Nat.pos_iff_ne_zero.mp h]
  · intro l' hp
    simp only [MetricSummary.mean, ofList_count, ofList_sum]
    rw [hp.length_eq, hp.sum_eq]

/-- Claim C2 witness: `count` and order-independence of `mean` at the
concrete lists `[1, 2]` and `[2, 1]`. -/
theorem C2_mean_witness :
    (MetricSummary.ofList [(1 : ℝ), 2]).count = 2 ∧
    (MetricSummary.ofList [(2 : ℝ), 1]).mean
      = (MetricSummary.ofList [(1 : ℝ), 2]).mean :=
  ⟨(C2_mean_is_arithmetic_mean [(1 : ℝ), 2]).1,
   (C2_mean_is_arithmetic_mean [(1 : ℝ), 2]).2.2 [2, 1] (List.Perm.swap 2 1 [])⟩

/-- Claim C3: `rms()` returns exactly `meansq - mean²`; in particular on any
nonempty value list it is the mean of the squares of the added values minus
the square of their mean, with no Bessel `n/(n-1)` correction and no square
root applied. -/
theorem C3_rms_formula :
    (∀ s : MetricSummary, s.rms = s.meansq - s.mean * s.mean) ∧
    ∀ l : List ℝ, l ≠ [] →
      (MetricSummary.ofList l).rms
        = (l.map fun v => v * v).sum / (l.length : ℝ)
            - (l.sum / (l.length : ℝ)) * (l.sum / (l.length : ℝ)) := by
  refine ⟨fun s => rfl, ?_⟩
  intro l hl
  have hlen : l.length ≠ 0 := by simpa using hl
  simp [MetricSummary.rms, MetricSummary.meansq, MetricSummary.mean,
    ofList_count, ofList_sum, ofList_sumsq, hlen]

/-- Claim C3 witness: the nonempty-list part instantiated at `[1, 3]`. -/
theorem C3_rms_witness :
    (MetricSummary.ofList [(1 : ℝ), 3]).rms
      = (([(1 : ℝ), 3]).map fun v => v * v).sum / (([(1 : ℝ), 3]).length : ℝ)
          - (([(1 : ℝ), 3]).sum / (([(1 : ℝ), 3]).length : ℝ))
              * (([(1 : ℝ), 3]).sum / (([(1 : ℝ), 3]).length : ℝ)) :=
  C3_rms_formula.2 [(1 : ℝ), 3] (by simp)

/-- Claim C10: every derived-quantity accessor of `MetricSummary` is total:
on any state with `count = 0` (in particular the freshly constructed
accumulator and the state after zero `add` calls), `mean`, `meansq` and
`dmean` all return 0 rather than dividing by zero. -/
theorem C10_accessors_total_at_zero (s : MetricSummary) (h : s.count = 0) :
    s.mean = 0 ∧ s.meansq = 0 ∧ s.dmean = 0 := by
  simp [MetricSummary.mean, MetricSummary.meansq, MetricSummary.dmean, h]

/-- Claim C10 witness: the zero-count totality statement at the concrete
state (count = 0, sum = 5, sumsq = 7). -/
theorem C10_accessors_total_witness :
    (⟨0, 5, 7⟩ : MetricSummary).mean = 0 ∧
    (⟨0, 5, 7⟩ : MetricSummary).meansq = 0 ∧
    (⟨0, 5, 7⟩ : MetricSummary).dmean = 0 :=
  C10_accessors_total_at_zero ⟨0, 5, 7⟩ rfl

/-- Input channel record. Modelled from the spec: each record exposes a
channel index, a pedestal estimate, a noise estimate (`pedestalRms`), raw
samples, and an open-ended metadata map from field name to value. -/
structure AdcChannelData where
  channel : ℕ
  pedestal : ℝ
  pedestalRms : ℝ
  raw : List ℝ
  metadata : List (String × ℝ)

/-- Modelled from the spec: the fixed built-in metric names recognized by
`getMetric` (the implementation file is not present; the header lists them). -/
def builtinMetrics : List String :=
  ["pedestal", "pedestalRms", "fembID", "apaFembID", "fembChannel",
   "rawRms", "rawTailFraction"]

/-- Modelled from the spec: `getMetric` returns the metric value and units
for a built-in name (FEMB indices via fixed modular arithmetic on the global
channel index, RMS of raw minus pedestal, tail fraction beyond 3x noise),
falls back to a metadata-field lookup, and fails (returns the failure
sentinel, here `none`) when the name matches neither. -/
noncomputable def getMetric (metric : String) (acd : AdcChannelData) :
    Option (ℝ × String) :=
  if metric = "pedestal" then some (acd.pedestal, "ADC count")
  else if metric = "pedestalRms" then some (acd.pedestalRms, "ADC count")
  else if metric = "fembID" then some (((acd.channel / 128 : ℕ) : ℝ), "")
  else if metric = "apaFembID" then some (((acd.channel / 128 % 20 : ℕ) : ℝ), "")
  else if metric = "fembChannel" then some (((acd.channel % 128 : ℕ) : ℝ), "")
  else if metric = "rawRms" then
    some (Real.sqrt
      ((acd.raw.map fun x => (x - acd.pedestal) * (x - acd.pedestal)).sum
        / (acd.raw.length : ℝ)), "ADC count")
  else if metric = "rawTailFraction" then
    some (((acd.raw.filter fun x =>
        decide (3 * acd.pedestalRms < |x - acd.pedestal|)).length : ℝ)
      / (acd.raw.length : ℝ), "")
  else (acd.metadata.lookup metric).map fun v => (v, "")

/-- Modelled from the spec: clamp the value into `[mmin, mmax]` when the
bounds are non-trivial (`mmin < mmax`), pinning out-of-range values to the
nearest bound; when `mmin ≥ mmax` no clamping is performed. -/
noncomputable def clampMetric (mmin mmax v : ℝ) : ℝ :=
  if mmin < mmax then min mmax (max mmin v) else v

/-- Add value `v` to the running-statistics accumulator at offset `off`. -/
def addAt (sums : List MetricSummary) (off : ℕ) (v : ℝ) : List MetricSummary :=
  sums.set off ((sums[off]?.getD ⟨0, 0, 0⟩).add v)

/-- Modelled from the spec: per-range aggregation (`viewMapForOneRange`).
For each batch channel inside the inclusive range, evaluate the metric (a
failure skips the channel and continues), clamp the value, append the clamped
value to the per-offset running statistics, and record `(channel, value)` in
the output table. -/
noncomputable def viewRange (metric : String) (mmin mmax : ℝ) (first last : ℕ) :
    List AdcChannelData → List MetricSummary → List (ℕ × ℝ) × List MetricSummary
  | [], sums => ([], sums)
  | acd :: rest, sums =>
    if first ≤ acd.channel ∧ acd.channel ≤ last then
      match getMetric metric acd with
      | some (v, _) =>
        let vc := clampMetric mmin mmax v
        let r := viewRange metric mmin mmax first last rest
          (addAt sums (acd.channel - first) vc)
        ((acd.channel, vc) :: r.1, r.2)
      | none => viewRange metric mmin mmax first last rest sums
    else viewRange metric mmin mmax first last rest sums

/-- A resolved channel range: named, labeled, contiguous inclusive span. -/
structure IndexRange where
  first : ℕ
  last : ℕ
  name : String
  label : String

/-- Smallest channel index appearing in a batch (0 for an empty batch). -/
def spanFirst : List AdcChannelData → ℕ
  | [] => 0
  | a :: rest => rest.foldl (fun m b => min m b.channel) a.channel

/-- Largest channel index appearing in a batch (0 for an empty batch). -/
def spanLast : List AdcChannelData → ℕ
  | [] => 0
  | a :: rest => rest.foldl (fun m b => max m b.channel) a.channel

/-- Modelled from the spec: the orchestrator's effective range list is the
configured list resolved through the channel-range catalog, or — if the
configured list is empty or contains the sentinel name "all" — a single
synthetic range spanning the full channel span seen in the batch, labeled
"All". -/
def effectiveRanges (catalog : String → Option IndexRange) (names : List String)
    (acds : List AdcChannelData) : List IndexRange :=
  if names = [] ∨ "all" ∈ names then
    [⟨spanFirst acds, spanLast acds, "all", "All"⟩]
  else
    names.filterMap catalog

/-- The tool's mutable state, embedded from the header's `State` class. -/
structure State where
  callCount : ℕ
  firstRun : ℕ
  lastRun : ℕ
  firstEvent : ℕ
  lastEvent : ℕ
  eventCount : ℕ
  runCount : ℕ
  crsums : List (IndexRange × List MetricSummary)

/-- Modelled from the spec: `State::update(run, event)` (implementation file
not present) increments `callCount`, updates first/last run and event, and
increments `eventCount` when the event id changes from the last call and
`runCount` when the run id changes (the first call counts as a change). -/
def State.update (s : State) (run event : ℕ) : State :=
  { callCount := s.callCount + 1
    firstRun := if s.callCount = 0 then run else s.firstRun
    lastRun := run
    firstEvent := if s.callCount = 0 then event else s.firstEvent
    lastEvent := event
    eventCount :=
      if s.callCount = 0 ∨ event ≠ s.lastEvent then s.eventCount + 1
      else s.eventCount
    runCount :=
      if s.callCount = 0 ∨ run ≠ s.lastRun then s.runCount + 1 else s.runCount
    crsums := s.crsums }

/-- Channel status as reported by the external status provider. -/
inductive ChannelStatus where
  | bad
  | noisy
  | good
deriving DecidableEq

/-- Modelled from the spec/header: a channel is classified bad, else noisy,
else good (good = not bad or noisy). -/
def classify (isBad isNoisy : ℕ → Bool) (ch : ℕ) : ChannelStatus :=
  if isBad ch then ChannelStatus.bad
  else if isNoisy ch then ChannelStatus.noisy
  else ChannelStatus.good

/-- Modelled from the spec: the sub-table of a range's table holding exactly
the entries whose channel is classified with status `st`. -/
def statusSubTable (isBad isNoisy : ℕ → Bool) (st : ChannelStatus)
    (table : List (ℕ × ℝ)) : List (ℕ × ℝ) :=
  table.filter fun e => decide (classify isBad isNoisy e.1 = st)

/-- `pat` is a prefix of the second list. -/
def isPrefixList : List Char → List Char → Bool
  | [], _ => true
  | _ :: _, [] => false
  | p :: ps, c :: cs => p == c && isPrefixList ps cs

/-- `pat` occurs as a contiguous subsequence of the second list. -/
def containsToken (pat : List Char) : List Char → Bool
  | [] => isPrefixList pat []
  | c :: cs => isPrefixList pat (c :: cs) || containsToken pat cs

/-- Modelled from the spec/header: status splitting is enabled exactly when
the output histogram-name template contains the placeholder `%STATUS%`. -/
def useStatus (histName : String) : Bool :=
  containsToken "%STATUS%".toList histName.toList

/-- Modelled from the spec/header: marker-line positions. With modulus 0,
the lines are the pattern entries inside the inclusive range; with modulus
greater than 0, the lines are the channels equal to `N*modulus + pattern[i]`
for any integer `N`, restricted to the range, as an ordered deduplicated
sequence. -/
def linePositions (first last modulus : ℕ) (pattern : List ℕ) : List ℕ :=
  if modulus = 0 then
    (List.range (last + 1)).filter fun c => decide (first ≤ c ∧ c ∈ pattern)
  else
    (List.range (last + 1)).filter fun c =>
      decide (first ≤ c ∧ ∃ p ∈ pattern, c % modulus = p % modulus)

theorem foldl_minch_le_init (t : List AdcChannelData) (a : ℕ) :
    t.foldl (fun m b => min m b.channel) a ≤ a := by
  induction t generalizing a with
  | nil => simp
  | cons b t ih =>
    exact le_trans (by simpa using ih (min a b.channel)) (min_le_left a b.channel)

theorem foldl_minch_le_mem (t : List AdcChannelData) (a : ℕ) (b : AdcChannelData)
    (h : b ∈ t) : t.foldl (fun m b => min m b.channel) a ≤ b.channel := by
  induction t generalizing a with
  | nil => exact absurd h (List.not_mem_nil b)
  | cons d t ih =>
    simp only [List.foldl_cons]
    rcases List.mem_cons.mp h with rfl | h'
    · exact le_trans (foldl_minch_le_init t (min a b.channel)) (min_le_right a b.channel)
    · exact ih (min a d.channel) h'

theorem foldl_maxch_init_le (t : List AdcChannelData) (a : ℕ) :
    a ≤ t.foldl (fun m b => max m b.channel) a := by
  induction t generalizing a with
  | nil => simp
  | cons b t ih =>
    exact le_trans (le_max_left a b.channel) (by simpa using ih (max a b.channel))

theorem foldl_maxch_mem_le (t : List AdcChannelData) (a : ℕ) (b : AdcChannelData)
    (h : b ∈ t) : b.channel ≤ t.foldl (fun m b => max m b.channel) a := by
  induction t generalizing a with
  | nil => exact absurd h (List.not_mem_nil b)
  | cons d t ih =>
    simp only [List.foldl_cons]
    rcases List.mem_cons.mp h with rfl | h'
    · exact le_trans (le_max_right a b.channel) (foldl_maxch_init_le t (max a b.channel))
    · exact ih (max a d.channel) h'

theorem spanFirst_le (acds : List AdcChannelData) (acd : AdcChannelData)
    (h : acd ∈ acds) : spanFirst acds ≤ acd.channel := by
  cases acds with
  | nil => exact absurd h (List.not_mem_nil acd)
  | cons a t =>
    simp only [spanFirst]
    rcases List.mem_cons.mp h with rfl | h'
    · exact foldl_minch_le_init t acd.channel
    · exact foldl_minch_le_mem t a.channel acd h'

theorem le_spanLast (acds : List AdcChannelData) (acd : AdcChannelData)
    (h : acd ∈ acds) : acd.channel ≤ spanLast acds := by
  cases acds with
  | nil => exact absurd h (List.not_mem_nil acd)
  | cons a t =>
    simp only [spanLast]
    rcases List.mem_cons.mp h with rfl | h'
    · exact foldl_maxch_init_le t acd.channel
    · exact foldl_maxch_mem_le t a.channel acd h'

/-- Claim C6: if the configured list of range names is empty or contains the
sentinel "all", the effective range list is exactly one synthetic range
labeled "All" that spans the full channel span seen in the batch. -/
theorem C6_effective_range_list (catalog : String → Option IndexRange)
    (names : List String) (acds : List AdcChannelData)
    (h : names = [] ∨ "all" ∈ names) :
    effectiveRanges catalog names acds
      = [⟨spanFirst acds, spanLast acds, "all", "All"⟩] ∧
    ∀ acd ∈ acds, spanFirst acds ≤ acd.channel ∧ acd.channel ≤ spanLast acds := by
  refine ⟨by simp [effectiveRanges, h], ?_⟩
  intro acd hmem
  exact ⟨spanFirst_le acds acd hmem, le_spanLast acds acd hmem⟩

/-- Claim C6 witness: the sentinel list `["all"]` over a one-channel batch
yields the single synthetic range spanning that channel. -/
theorem C6_effective_range_witness :
    effectiveRanges (fun _ => none) ["all"] [⟨12, 0, 0, [], []⟩]
      = [⟨12, 12, "all", "All"⟩] ∧
    spanFirst [(⟨12, 0, 0, [], []⟩ : AdcChannelData)] ≤ 12 ∧
    12 ≤ spanLast [(⟨12, 0, 0, [], []⟩ : AdcChannelData)] :=
  ⟨(C6_effective_range_list (fun _ => none) ["all"] [⟨12, 0, 0, [], []⟩]
      (Or.inr (by simp))).1,
   (C6_effective_range_list (fun _ => none) ["all"] [⟨12, 0, 0, [], []⟩]
      (Or.inr (by simp))).2 ⟨12, 0, 0, [], []⟩ (by simp)⟩

/-- Claim C7: for any two consecutive orchestrator calls with the same run id
and different event ids, the second call increments `eventCount` by exactly 1
and leaves `runCount` unchanged. -/
theorem C7_event_run_bookkeeping (s : State) (run e1 e2 : ℕ) (h : e1 ≠ e2) :
    ((s.update run e1).update run e2).eventCount
      = (s.update run e1).eventCount + 1 ∧
    ((s.update run e1).update run e2).runCount = (s.update run e1).runCount := by
  have h' : e2 ≠ e1 := Ne.symm h
  constructor
  · simp [State.update, h']
  · simp [State.update]

/-- Claim C7 witness: the bookkeeping statement at a concrete fresh state,
run id 5 and event ids 1 then 2. -/
theorem C7_event_run_witness :
    (((⟨0, 0, 0, 0, 0, 0, 0, []⟩ : State).update 5 1).update 5 2).eventCount
      = ((⟨0, 0, 0, 0, 0, 0, 0, []⟩ : State).update 5 1).eventCount + 1 ∧
    (((⟨0, 0, 0, 0, 0, 0, 0, []⟩ : State).update 5 1).update 5 2).runCount
      = ((⟨0, 0, 0, 0, 0, 0, 0, []⟩ : State).update 5 1).runCount :=
  C7_event_run_bookkeeping ⟨0, 0, 0, 0, 0, 0, 0, []⟩ 5 1 2 (by decide)

/-- Claim C5: when status splitting is enabled (the name template contains
the `%STATUS%` placeholder), every table entry is assigned exactly one of the
statuses bad/noisy/good, and the three sub-tables partition the range's
table: membership in exactly one sub-table, and every sub-table entry comes
from the table. -/
theorem C5_status_partition (histName : String) (isBad isNoisy : ℕ → Bool)
    (table : List (ℕ × ℝ)) (h : useStatus histName = true) :
    (∀ e ∈ table, ∃! st : ChannelStatus, e ∈ statusSubTable isBad isNoisy st table) ∧
    (∀ st : ChannelStatus, ∀ e ∈ statusSubTable isBad isNoisy st table, e ∈ table) := by
  constructor
  · intro e he
    refine ⟨classify isBad isNoisy e.1, ?_, ?_⟩
    · simp [statusSubTable, List.mem_filter, he]
    · intro st hst
      have hdec := (List.mem_filter.mp hst).2
      simp only [decide_eq_true_eq] at hdec
      exact hdec.symm
  · intro st e he
    exact (List.mem_filter.mp he).1

/-- Claim C5 witness: the partition statement at a one-entry table with an
all-good status provider and a template containing the placeholder. -/
theorem C5_status_witness :
    ∃! st : ChannelStatus,
      ((0 : ℕ), (1 : ℝ)) ∈ statusSubTable (fun _ => false) (fun _ => false) st
        [((0 : ℕ), (1 : ℝ))] :=
  (C5_status_partition "met_%STATUS%" (fun _ => false) (fun _ => false)
    [((0 : ℕ), (1 : ℝ))] (by decide)).1 ((0 : ℕ), (1 : ℝ)) (by simp)

theorem mod_eq_iff_int (m c p : ℕ) (hm : 0 < m) :
    c % m = p % m ↔ ∃ N : ℤ, (c : ℤ) = N * m + p := by
  constructor
  · intro h
    have hd : (m : ℤ) ∣ (p : ℤ) - (c : ℤ) := (Nat.modEq_iff_dvd).mp h
    obtain ⟨k, hk⟩ := hd
    exact ⟨-k, by linarith⟩
  · rintro ⟨N, hN⟩
    have hd : (m : ℤ) ∣ (p : ℤ) - (c : ℤ) := ⟨-N, by linarith⟩
    exact (Nat.modEq_iff_dvd).mpr hd

/-- Claim C8: the line-position function is a pure function of range,
modulus and pattern: with modulus 0 it yields exactly the pattern entries
inside the inclusive range; with positive modulus it yields exactly the
channels equal to `N*modulus + p` for an integer `N` and a pattern entry `p`
inside the range; the output is strictly sorted (hence ordered and
deduplicated); and the spec's two concrete examples hold. -/
theorem C8_line_positions :
    (∀ first last c (pattern : List ℕ),
       c ∈ linePositions first last 0 pattern
         ↔ first ≤ c ∧ c ≤ last ∧ c ∈ pattern) ∧
    (∀ first last m c (pattern : List ℕ), 0 < m →
       (c ∈ linePositions first last m pattern
         ↔ first ≤ c ∧ c ≤ last ∧ ∃ p ∈ pattern, ∃ N : ℤ, (c : ℤ) = N * m + p)) ∧
    (∀ first last m (pattern : List ℕ),
       (linePositions first last m pattern).Sorted (· < ·)) ∧
    linePositions 0 9 0 [2, 5] = [2, 5] ∧
    linePositions 0 9 4 [0] = [0, 4, 8] := by
  refine ⟨?_, ?_, ?_, by decide, by decide⟩
  · intro first last c pattern
    simp only [linePositions, eq_self_iff_true, if_true, List.mem_filter,
      List.mem_range, decide_eq_true_eq, Nat.lt_succ_iff]
    tauto
  · intro first last m c pattern hm
    simp only [linePositions, if_neg (Nat.pos_iff_ne_zero.mp hm), List.mem_filter,
      List.mem_range, decide_eq_true_eq, Nat.lt_succ_iff]
    constructor
    · rintro ⟨hcle, hfirst, p, hp, hmod⟩
      exact ⟨hfirst, hcle, p, hp, (mod_eq_iff_int m c p hm).mp hmod⟩
    · rintro ⟨hfirst, hcle, p, hp, hN⟩
      exact ⟨hcle, hfirst, p, hp, (mod_eq_iff_int m c p hm).mpr hN⟩
  · intro first last m pattern
    unfold linePositions
    split
    · exact List.Pairwise.filter _ (List.pairwise_lt_range _)
    · exact List.Pairwise.filter _ (List.pairwise_lt_range _)

/-- Claim C8 witness: the positive-modulus characterization instantiated at
modulus 4, pattern `[0]`, channel 8 (equal to `2*4 + 0`), and the modulus-0
characterization at channel 5 of pattern `[2, 5]`. -/
theorem C8_line_positions_witness :
    8 ∈ linePositions 0 9 4 [0] ∧ 5 ∈ linePositions 0 9 0 [2, 5] :=
  ⟨(C8_line_positions.2.1 0 9 4 8 [0] (by decide)).mpr
      ⟨by decide, by decide, 0, by decide, 2, by norm_num⟩,
   (C8_line_positions.1 0 9 5 [2, 5]).mpr (by decide)⟩

/-- Claim C9: a metric name that matches neither a built-in metric nor a
present metadata field makes `getMetric` return the failure sentinel, and the
failure is per-channel and non-fatal: the failing channel contributes nothing
to the output table or the statistics, and the rest of the batch is processed
exactly as if the channel were absent. -/
theorem C9_unknown_metric (met : String) (acd : AdcChannelData)
    (h1 : met ∉ builtinMetrics) (h2 : acd.metadata.lookup met = none) :
    getMetric met acd = none ∧
    ∀ (mmin mmax : ℝ) (first last : ℕ) (rest : List AdcChannelData)
      (sums : List MetricSummary),
      viewRange met mmin mmax first last (acd :: rest) sums
        = viewRange met mmin mmax first last rest sums := by
  have hg : getMetric met acd = none := by
    simp only [builtinMetrics, List.mem_cons, List.not_mem_nil, or_false,
      not_or] at h1
    obtain ⟨n1, n2, n3, n4, n5, n6, n7⟩ := h1
    simp [getMetric, n1, n2, n3, n4, n5, n6, n7, h2]
  refine ⟨hg, ?_⟩
  intro mmin mmax first last rest sums
  simp [viewRange, hg]

/-- Claim C9 witness: the unknown-metric failure and the skip behavior at the
concrete name "bogus" on a channel with empty metadata. -/
theorem C9_unknown_metric_witness :
    getMetric "bogus" ⟨0, 0, 0, [], []⟩ = none ∧
    viewRange "bogus" 0 1 0 5 [⟨0, 0, 0, [], []⟩] []
      = viewRange "bogus" 0 1 0 5 [] [] :=
  ⟨(C9_unknown_metric "bogus" ⟨0, 0, 0, [], []⟩ (by decide) rfl).1,
   (C9_unknown_metric "bogus" ⟨0, 0, 0, [], []⟩ (by decide) rfl).2 0 1 0 5 [] []⟩

/-- The spec's end-to-end clamping scenario: metric "pedestal" over channels
10-13 with values `[100, 102, 98, 1000]`, axis bounds `[90, 110]`, starting
from four fresh accumulators. -/
noncomputable def pedScenario : List (ℕ × ℝ) × List MetricSummary :=
  viewRange "pedestal" 90 110 10 13
    [⟨10, 100, 0, [], []⟩, ⟨11, 102, 0, [], []⟩, ⟨12, 98, 0, [], []⟩,
     ⟨13, 1000, 0, [], []⟩]
    [⟨0, 0, 0⟩, ⟨0, 0, 0⟩, ⟨0, 0, 0⟩, ⟨0, 0, 0⟩]

/-- Claim C4: with non-trivial bounds (`min < max`) every metric value is
clamped into `[metricMin, metricMax]` (pinned to the nearest bound, identity
inside the bounds); with `min ≥ max` no clamping is performed; the clamped
value is what enters `MetricSummary.add`; and in the spec's concrete
scenario the table holds the clamped values `[100, 102, 98, 110]` and the
accumulator at offset 3 ends with count 1 and mean 110. -/
theorem C4_clamping (mmin mmax v : ℝ) :
    (mmin < mmax →
       mmin ≤ clampMetric mmin mmax v ∧ clampMetric mmin mmax v ≤ mmax ∧
       (mmin ≤ v → v ≤ mmax → clampMetric mmin mmax v = v)) ∧
    (¬ mmin < mmax → clampMetric mmin mmax v = v) ∧
    (∀ (met : String) (first last : ℕ) (acd : AdcChannelData)
       (rest : List AdcChannelData) (sums : List MetricSummary) (u : String),
       getMetric met acd = some (v, u) → first ≤ acd.channel →
       acd.channel ≤ last →
       (viewRange met mmin mmax first last (acd :: rest) sums).2
         = (viewRange met mmin mmax first last rest
             (addAt sums (acd.channel - first) (clampMetric mmin mmax v))).2) ∧
    pedScenario.1 = [(10, 100), (11, 102), (12, 98), (13, 110)] ∧
    (pedScenario.2[3]?.getD (⟨0, 0, 0⟩ : MetricSummary)).count = 1 ∧
    (pedScenario.2[3]?.getD (⟨0, 0, 0⟩ : MetricSummary)).mean = 110 := by
  refine ⟨?_, ?_, ?_, ?_, ?_, ?_⟩
  · intro h
    simp only [clampMetric, if_pos h]
    refine ⟨le_min h.le (le_max_left mmin v), min_le_left mmax (max mmin v), ?_⟩
    intro h1 h2
    rw [max_eq_right h1, min_eq_right h2]
  · intro h
    simp [clampMetric, h]
  · intro met first last acd rest sums u hget h1 h2
    simp only [viewRange, if_pos (And.intro h1 h2), hget]
  · norm_num [pedScenario, viewRange, getMetric, clampMetric, addAt,
      MetricSummary.add, min_def, max_def]
  · norm_num [pedScenario, viewRange, getMetric, clampMetric, addAt,
      MetricSummary.add, min_def, max_def]
  · norm_num [pedScenario, viewRange, getMetric, clampMetric, addAt,
      MetricSummary.add, MetricSummary.mean, min_def, max_def]

/-- Claim C4 witness: the clamping bounds at value 1000 with bounds
`[90, 110]`, the no-clamping branch with inverted bounds, and the
clamped-value-enters-add step at a concrete single-channel batch. -/
theorem C4_clamping_witness :
    clampMetric 90 110 1000 ≤ 110 ∧
    clampMetric 110 90 5 = 5 ∧
    (viewRange "pedestal" 90 110 10 13 [⟨10, 100, 0, [], []⟩] [⟨0, 0, 0⟩]).2
      = (viewRange "pedestal" 90 110 10 13 []
          (addAt [⟨0, 0, 0⟩] (10 - 10) (clampMetric 90 110 100))).2 :=
  ⟨((C4_clamping 90 110 1000).1 (by norm_num)).2.1,
   (C4_clamping 110 90 5).2.1 (by norm_num),
   (C4_clamping 90 110 100).2.2.1 "pedestal" 10 13 ⟨10, 100, 0, [], []⟩ []
     [⟨0, 0, 0⟩] "ADC count" rfl (by decide) (by decide)⟩
